import Mathlib

/-!
# Houdini / ComfyUI bridge: the polling listener

A shallow embedding of `src/web/js/listener.js`: the module-level checkpoint
`last_time`, the function `poll_messages` with its three command branches
(`create_loader`, `refresh`, `refresh_all`) and the host objects they touch
(`app.graph.nodes`, node widgets, node images, the visible viewport).

JavaScript strings are lists of characters, numbers that are compared or added
(timestamps, viewport coordinates) are rationals, and a JavaScript exception is
an explicit `raised` flag next to the state the exception leaves behind.
-/

namespace Listener

/-- A JavaScript string. -/
abbrev Str := List Char

/-- The values `args.image` and `widget.value` range over: a string, or
`undefined` when the `image` key is absent from the argument object. -/
inductive JsVal where
  | undefined
  | str (s : Str)
  deriving DecidableEq, Repr

/-- A node widget: `widget.name` and `widget.value`. -/
structure Widget where
  name : Str
  value : JsVal
  deriving DecidableEq, Repr

/-- An absolute URL as the `URL` class holds it: everything before the query
(`base`: scheme, host and path), the name/value pairs of `searchParams`, and
the fragment (`none` without a "#"). `new URL(img.src)` reads this record and
`img_url.toString()` writes it back. -/
structure Url where
  base : Str
  params : List (Str × Str)
  hash : Option Str
  deriving DecidableEq, Repr

/-- An image element attached to a node; only `img.src` is used. The `src` of
an attached image is held as the absolute URL the DOM reports for it, so
`new URL(node.imgs[0].src)` succeeds. -/
structure Image where
  src : Url
  deriving DecidableEq, Repr

/-- A graph node: `node.type`, `node.title`, `node.widgets` and `node.imgs`
(each `none` when the node has no such property; the host only gives a node a
`widgets` array once it has a widget) and `node.pos`. -/
structure Node where
  type : Str
  title : Str
  widgets : Option (List Widget)
  imgs : Option (List Image)
  pos : ℚ × ℚ
  deriving DecidableEq, Repr

/-- The argument object `message[2]`; only its `image` key is read. -/
structure Args where
  image : JsVal
  deriving DecidableEq, Repr

/-- A message `[timestamp, command, args]`; `args = none` is a missing payload
(`undefined` or `null`), on which `args.image` throws. -/
structure Message where
  time : ℚ
  command : Str
  args : Option Args
  deriving DecidableEq, Repr

/-- What the browser and the host editor supply to `poll_messages`:
`app.canvas.visible_area` (`[x, y, width, height]`), `location.protocol`,
`location.host`, the widgets of a node fresh from
`LiteGraph.createNode("LoadImage")` (the host's loader type declares at least
one), the successive results of `Math.random()` written as strings, and the
two codecs of the browser's `URL` class: `unescape`, what a piece of query
text holding a "%" stands for (percent-decoding, then UTF-8 decoding), and
`escape`, how the text after a "#" is stored as the fragment. -/
structure Host where
  visible_area : ℚ × ℚ × ℚ × ℚ
  protocol : Str
  host : Str
  loader_widget : Widget
  loader_widgets : List Widget
  random : Nat → Str
  unescape : Str → Str
  escape : Str → Str

/-- The mutable state `poll_messages` works on: the module variable
`last_time`, the node list `app.graph.nodes`, and how many times
`Math.random()` has been called. -/
structure State where
  last_time : ℚ
  nodes : List Node
  calls : Nat
  deriving DecidableEq, Repr

/-- A state together with whether an exception escaped. -/
structure Outcome where
  state : State
  raised : Bool
  deriving DecidableEq, Repr

/-- The body of a response as `rep.json()` sees it, for the bodies the backend
is meant to send or to fail with: not JSON (`malformed`), or JSON whose
`messages` is a list of messages or cannot be read at all (`none`: the key is
absent or null, or the body is not an object, so that line 18 or line 21
throws). A `messages` value of another kind is a `Reply` below. -/
inductive Body where
  | malformed
  | json (messages : Option (List Message))
  deriving DecidableEq, Repr

/-- The result of `api.fetchApi(...)`: a rejected promise, or a response with
its HTTP status and body. -/
inductive Fetch where
  | rejected
  | response (status : Nat) (body : Body)
  deriving DecidableEq, Repr

/-- `s.split(sep)` for a one-character separator. -/
def split (sep : Char) : Str → List Str
  | [] => [[]]
  | c :: cs =>
    if c = sep then [] :: split sep cs
    else
      match split sep cs with
      | [] => [[c]]
      | seg :: rest => (c :: seg) :: rest

/-- The default `checker` of line 40:
`n.split("/").at(-1).startsWith("imgtemp")`; `none` when the call throws
(`n` is not a string). -/
def checker (n : JsVal) : Option Bool :=
  match n with
  | .undefined => none
  | .str s =>
    match (split '/' s).getLast? with
    | none => none
    | some seg => some ("imgtemp".toList.isPrefixOf seg)

/-- The `checker` of line 43 for `refresh`: `n == args.image`. -/
def checker_refresh (image : JsVal) (n : JsVal) : Option Bool :=
  some (decide (n = image))

/-- The checker the refresh branch ends up with (lines 40 to 44). -/
def checkerFor (command : Str) (a : Args) : JsVal → Option Bool :=
  if command = "refresh".toList then checker_refresh a.image else checker

/-- Lines 55 to 59: `let [part1, part2] = img_path.split("/")` followed by the
swap when `part2` is undefined. The result is `(part1, part2)`. -/
def splitPath (img_path : Str) : Str × Str :=
  match split '/' img_path with
  | [] => ([], [])
  | [part1] => ([], part1)
  | part1 :: part2 :: _ => (part1, part2)

/-- The text before the first `sep` and, when there is a `sep`, the text
after it. -/
def cut (sep : Char) : Str → Str × Option Str
  | [] => ([], none)
  | c :: cs =>
    if c = sep then ([], some cs)
    else ((c :: (cut sep cs).1), (cut sep cs).2)

/-- The characters the URL parser drops from its input: tab, line feed and
carriage return. -/
def isTabOrNewline (c : Char) : Bool :=
  c = Char.ofNat 9 ∨ c = Char.ofNat 10 ∨ c = Char.ofNat 13

/-- A "+" of a query stands for a space. -/
def plusToSpace (s : Str) : Str :=
  s.map (fun c => if c = '+' then ' ' else c)

/-- What a name or value written in a query stands for: itself when it holds
no "%", and what the browser decodes it to otherwise. -/
def decode (h : Host) (s : Str) : Str :=
  if '%' ∈ s then h.unescape s else s

/-- One `name=value` piece of a query, cut at its first "=". -/
def parsePair (h : Host) (piece : Str) : Str × Str :=
  (decode h (plusToSpace (cut '=' piece).1),
   decode h (plusToSpace ((cut '=' piece).2.getD [])))

/-- The `searchParams` of a query: its non-empty "&"-separated pieces. -/
def parseQuery (h : Host) (query : Str) : List (Str × Str) :=
  ((split '&' query).filter (fun piece => piece ≠ [])).map (parsePair h)

/-- What `new URL` makes of the text after the "?" of a URL string: tabs and
newlines are dropped, the first "#" starts the fragment, the rest is the
query. -/
def parseTail (h : Host) (tail : Str) : List (Str × Str) × Option Str :=
  (parseQuery h (cut '#' (tail.filter (fun c => !isTabOrNewline c))).1,
   (cut '#' (tail.filter (fun c => !isTabOrNewline c))).2.map h.escape)

/-- The text line 60 puts after `/api/view?`. -/
def viewQuery (part1 part2 : Str) : Str :=
  "filename=".toList ++ part2 ++ "&type=input&subfolder=".toList ++ part1
    ++ "&rand=0.0".toList

/-- Line 60: the image built for a node without exactly one image. The two
parts of the path are written into the URL string as they are, and the image
holds what `new URL` reads from that string. -/
def newImage (h : Host) (img_path : Str) : Image :=
  ⟨⟨h.protocol ++ "//".toList ++ h.host ++ "/api/view".toList,
    (parseTail h (viewQuery (splitPath img_path).1 (splitPath img_path).2)).1,
    (parseTail h (viewQuery (splitPath img_path).1 (splitPath img_path).2)).2⟩⟩

/-- `searchParams.set(name, value)`: the first pair named `name` gets `value`
and the other pairs of that name are removed; without such a pair one is
appended. -/
def setParam (name value : Str) : List (Str × Str) → List (Str × Str)
  | [] => [(name, value)]
  | (k, v) :: ps =>
    if k = name then (name, value) :: ps.filter (fun p => p.1 ≠ name)
    else (k, v) :: setParam name value ps

/-- `searchParams.get(name)`: the value of the first pair named `name`. -/
def getParam (name : Str) : List (Str × Str) → Option Str
  | [] => none
  | (k, v) :: ps => if k = name then some v else getParam name ps

/-- Lines 65 to 67: rewrite the `rand` parameter of an image. -/
def setRand (r : Str) (img : Image) : Image :=
  ⟨⟨img.src.base, setParam "rand".toList r img.src.params, img.src.hash⟩⟩

/-- One iteration of the loop of lines 46 to 68 on `node`, with `r` the value
`Math.random()` would give. `none`: an exception was thrown (the node is then
unchanged); `some (node, drew)`: the node afterwards and whether
`Math.random()` was called. The test of line 47 comes first, so
`node.widgets.length` (line 48) is read, and throws without a `widgets`
property, only on a node of type `LoadImage`. -/
def refreshNode (h : Host) (chk : JsVal → Option Bool) (r : Str) (node : Node) :
    Option (Node × Bool) :=
  if node.type ≠ "LoadImage".toList then some (node, false)
  else
    match node.widgets with
    | none => none
    | some [] => some (node, false)
    | some (w :: _) =>
      if w.name ≠ "image".toList then some (node, false)
      else
        match chk w.value with
        | none => none
        | some false => some (node, false)
        | some true =>
          match node.imgs with
          | some [img] => some ({ node with imgs := some [setRand r img] }, true)
          | _ =>
            match w.value with
            | .undefined => none
            | .str img_path =>
              some ({ node with imgs := some [setRand r (newImage h img_path)] }, true)

/-- The loop of lines 46 to 68 over `app.graph.nodes`, from call count `calls`.
Returns the nodes afterwards, the call count afterwards and whether an
exception stopped the loop. -/
def refreshNodes (h : Host) (chk : JsVal → Option Bool) :
    List Node → Nat → List Node × Nat × Bool
  | [], calls => ([], calls, false)
  | node :: rest, calls =>
    match refreshNode h chk (h.random calls) node with
    | none => (node :: rest, calls, true)
    | some (node', drew) =>
      let r := refreshNodes h chk rest (if drew then calls + 1 else calls)
      (node' :: r.1, r.2.1, r.2.2)

/-- Lines 28 to 34: the node `create_loader` adds. -/
def newLoader (h : Host) (loader_name : JsVal) : Node :=
  { type := "LoadImage".toList
    title := "houdini import".toList
    widgets := some ({ h.loader_widget with value := loader_name } :: h.loader_widgets)
    imgs := none
    pos := (h.visible_area.1 + h.visible_area.2.2.1 / 2,
            h.visible_area.2.1 + h.visible_area.2.2.2 / 2) }

/-- Lines 24 to 71: the body of the message loop after `last_time` has been
updated, for one message. -/
def dispatch (h : Host) (m : Message) (s : State) : Outcome :=
  if m.command = "create_loader".toList then
    match m.args with
    | none => ⟨s, true⟩
    | some a => ⟨{ s with nodes := s.nodes ++ [newLoader h a.image] }, false⟩
  else if m.command = "refresh_all".toList ∨ m.command = "refresh".toList then
    match m.args with
    | none => ⟨s, true⟩
    | some a =>
      let r := refreshNodes h (checkerFor m.command a) s.nodes s.calls
      ⟨{ s with nodes := r.1, calls := r.2.1 }, r.2.2⟩
  else ⟨s, false⟩

/-- Lines 22 to 72: the `for (var message of messages)` loop. An exception in
a message's branch leaves the loop. -/
def loop (h : Host) : List Message → State → Outcome
  | [], s => ⟨s, false⟩
  | m :: ms, s =>
    let o := dispatch h m { s with last_time := max s.last_time m.time }
    if o.raised then o else loop h ms o.state

/-- Lines 7 to 75: one call of `poll_messages` on the outcome of the fetch. -/
def poll_messages (h : Host) (f : Fetch) (s : State) : Outcome :=
  match f with
  | .rejected => ⟨s, false⟩
  | .response _ .malformed => ⟨s, true⟩
  | .response _ (.json none) => ⟨s, true⟩
  | .response _ (.json (some messages)) =>
    if messages.length > 0 then loop h messages s else ⟨s, false⟩

/-- Successive calls of `poll_messages`, one per timer tick; the module state
survives a call that ended in an exception. -/
def run (h : Host) : List Fetch → State → State
  | [], s => s
  | f :: fs, s => run h fs (poll_messages h f s).state


/-- The greatest of `c` and the timestamps of `ms`, taken left to right. -/
def maxTime (c : ℚ) (ms : List Message) : ℚ :=
  ms.foldl (fun a m => max a m.time) c

/-- Line 4: the state when the module is loaded, `now` being `Date.now()`. -/
def init (now : ℚ) (nodes : List Node) : State :=
  ⟨now / 1000, nodes, 0⟩

/-- A host for the worked examples: an 800 by 600 viewport at (100, 50). The
texts of the examples hold neither "%" nor "#", so its two codecs are never
consulted. -/
def exampleHost : Host :=
  { visible_area := (100, 50, 800, 600)
    protocol := "http:".toList
    host := "localhost:8188".toList
    loader_widget := ⟨"image".toList, .str "example.png".toList⟩
    loader_widgets := [⟨"upload".toList, .str "image".toList⟩]
    random := fun k => '0' :: '.' :: List.replicate (k + 1) '5'
    unescape := fun s => s
    escape := fun s => s }

/-- A `create_loader` message for `image`. -/
def createMsg (time : ℚ) (image : Str) : Message :=
  ⟨time, "create_loader".toList, some ⟨.str image⟩⟩

/-- A `refresh` message for `image`. -/
def refreshMsg (time : ℚ) (image : Str) : Message :=
  ⟨time, "refresh".toList, some ⟨.str image⟩⟩

/-- A `refresh` message whose argument payload is missing. -/
def refreshNoArgs (time : ℚ) : Message :=
  ⟨time, "refresh".toList, none⟩

/-- A message with a command the listener does not know. -/
def unknownMsg (time : ℚ) : Message :=
  ⟨time, "delete_all".toList, some ⟨.undefined⟩⟩

/-- A state with an empty graph and checkpoint `c`. -/
def emptyState (c : ℚ) : State :=
  ⟨c, [], 0⟩

/-- A successful response carrying `ms`. -/
def okBatch (ms : List Message) : Fetch :=
  .response 200 (.json (some ms))

/-- `seg` is the last "/"-separated segment of `v`: it holds no "/" and is
either all of `v` or what follows some "/" of `v`. -/
def IsLastSegment (v seg : Str) : Prop :=
  '/' ∉ seg ∧ (v = seg ∨ ∃ pre, v = pre ++ '/' :: seg)

/-- The nodes `refresh` with path `p` is to touch: type `LoadImage`, at least
one widget, the first widget named `image` and holding exactly `p`. -/
def Qualifies (p : Str) (n : Node) : Prop :=
  n.type = "LoadImage".toList ∧ 1 ≤ (n.widgets.getD []).length
  ∧ (n.widgets.getD []).head?.map Widget.name = some "image".toList
  ∧ (n.widgets.getD []).head?.map Widget.value = some (.str p)

instance (p : Str) : DecidablePred (Qualifies p) := fun n => by
  unfold Qualifies
  infer_instance

/-- A node of type `LoadImage` that has no `widgets` property. -/
def Broken (n : Node) : Prop :=
  n.type = "LoadImage".toList ∧ n.widgets = none

instance : DecidablePred Broken := fun n => by
  unfold Broken
  infer_instance

/-- A text with none of the characters that end or alter a query value:
"&", "#", "%", "+", tab, line feed, carriage return. -/
def Plain (s : Str) : Prop :=
  ∀ c ∈ s, c ≠ '&' ∧ c ≠ '#' ∧ c ≠ '%' ∧ c ≠ '+' ∧ isTabOrNewline c = false

/-- A loader node showing `path`, as the host lays it out. -/
def loaderNode (path : Str) (imgs : Option (List Image)) : Node :=
  { type := "LoadImage".toList
    title := "Load Image".toList
    widgets := some [⟨"image".toList, .str path⟩, ⟨"upload".toList, .str "image".toList⟩]
    imgs := imgs
    pos := (0, 0) }

/-- An image already shown by the host, with an earlier `rand` value. -/
def shownImage : Image :=
  ⟨⟨"http://localhost:8188/api/view".toList,
    [("filename".toList, "img.png".toList), ("subfolder".toList, "sub".toList),
     ("rand".toList, "0.1".toList)], none⟩⟩

/-- Two loader nodes at `sub/img.png` (one without an image, one with) and a
third at `other.png`. -/
def exampleGraph : List Node :=
  [loaderNode "sub/img.png".toList none, loaderNode "sub/img.png".toList (some [shownImage]),
   loaderNode "other.png".toList none]

/-- A node of type `LoadImage` without a `widgets` property, followed by a
loader node at `sub/img.png` that has no image yet. -/
def brokenGraph : List Node :=
  [{ type := "LoadImage".toList, title := "Load Image".toList, widgets := none,
     imgs := none, pos := (0, 0) },
   loaderNode "sub/img.png".toList none]

/-- The image a refreshed node starts from: its single attached image, or in
every other case the image built from the path `p`. -/
def baseImage (h : Host) (p : Str) (n : Node) : Image :=
  match n.imgs with
  | some [img] => img
  | _ => newImage h p

/-- The node list after `refresh` with path `p`, described node by node: the
pass stops at the first `Broken` node; before it a qualifying node gets the
single image `baseImage` with `rand` set to the next random value and every
other node is kept. -/
def refreshed (h : Host) (p : Str) : List Node → Nat → List Node
  | [], _ => []
  | n :: ns, c =>
    if Broken n then n :: ns
    else if Qualifies p n then
      { n with imgs := some [setRand (h.random c) (baseImage h p n)] } :: refreshed h p ns (c + 1)
    else n :: refreshed h p ns c

/-- A JavaScript number as `last_time` holds it once `Math.max` has been given
something that is not a number: `NaN`, or a number. -/
inductive JsNum where
  | nan
  | num (q : ℚ)
  deriving DecidableEq, Repr

/-- `Math.max(a, b)`: `NaN` as soon as one argument is. -/
def JsNum.max : JsNum → JsNum → JsNum
  | .num a, .num b => .num (Max.max a b)
  | _, _ => .nan

/-- The white space of JavaScript: a string of it converts to 0. -/
def isJsWhiteSpace (c : Char) : Bool :=
  c.toNat ∈ [9, 10, 11, 12, 13, 32, 160, 5760, 8232, 8233, 8239, 8287, 12288, 65279]
    ∨ (8192 ≤ c.toNat ∧ c.toNat ≤ 8202)

/-- What `Math.max` makes of `message[0]` when `message` is one character of a
string: a digit is its value, white space is 0, anything else is `NaN`. -/
def charToNumber (c : Char) : JsNum :=
  if c.isDigit then .num (c.toNat - 48)
  else if isJsWhiteSpace c then .num 0
  else .nan

/-- Every outcome of the fetch, as far as `poll_messages` looks into it: the
outcomes of `Fetch`, a body whose `messages` is a string (`text`), and a body
whose `messages` is a number, a boolean or an object that is not an array
(`other`; `enters` tells whether `messages.length > 0` holds of it, in which
case `for ... of` throws because the value cannot be iterated). -/
inductive Reply where
  | typed (f : Fetch)
  | text (status : Nat) (messages : Str)
  | other (status : Nat) (enters : Bool)
  deriving DecidableEq, Repr

/-- The module state after a call on any `Reply`, with `last_time` a
JavaScript number. -/
structure Result where
  last_time : JsNum
  nodes : List Node
  calls : Nat
  raised : Bool
  deriving DecidableEq, Repr

/-- Lines 7 to 75 on any reply. On a string the loop of line 22 runs over its
characters: line 23 feeds each to `Math.max`, and as one character has no
second element the command is unknown and nothing is dispatched. -/
def poll_messages_any (h : Host) (r : Reply) (s : State) : Result :=
  match r with
  | .typed f =>
    ⟨.num (poll_messages h f s).state.last_time, (poll_messages h f s).state.nodes,
     (poll_messages h f s).state.calls, (poll_messages h f s).raised⟩
  | .text _ messages =>
    ⟨messages.foldl (fun a c => JsNum.max a (charToNumber c)) (.num s.last_time),
     s.nodes, s.calls, false⟩
  | .other _ enters => ⟨.num s.last_time, s.nodes, s.calls, enters⟩

/-- What the claims say of the one image `img` a qualifying node `n` carries
after `refresh` with path `p` drew the random value `r`: its `rand` parameter
is `r` and it has no second `rand`; when `n` had exactly one image `img0`,
only the `rand` parameter differs from `img0`; otherwise the image points at
`/api/view` on the page's own origin, and for a plain path its parameters are
the last part of the path as `filename`, `input` as `type`, the first part as
`subfolder`, and `rand`. -/
def Rewritten (h : Host) (p r : Str) (n : Node) (img : Image) : Prop :=
  getParam "rand".toList img.src.params = some r
  ∧ img.src.params.countP (fun q => decide (q.1 = "rand".toList)) = 1
  ∧ (∀ img0 : Image, n.imgs = some [img0] →
      img.src.base = img0.src.base ∧ img.src.hash = img0.src.hash
      ∧ img.src.params.filter (fun q => q.1 ≠ "rand".toList)
          = img0.src.params.filter (fun q => q.1 ≠ "rand".toList))
  ∧ ((∀ img0 : Image, n.imgs ≠ some [img0]) →
      img.src.base = h.protocol ++ "//".toList ++ h.host ++ "/api/view".toList)
  ∧ ((∀ img0 : Image, n.imgs ≠ some [img0]) → Plain p →
      img = ⟨⟨h.protocol ++ "//".toList ++ h.host ++ "/api/view".toList,
        [("filename".toList, (splitPath p).2), ("type".toList, "input".toList),
         ("subfolder".toList, (splitPath p).1), ("rand".toList, r)], none⟩⟩)

/-! ## The checkpoint -/

theorem dispatch_last_time (h : Host) (m : Message) (s : State) :
    (dispatch h m s).state.last_time = s.last_time := by
  unfold dispatch
  split_ifs
  · cases m.args <;> rfl
  · cases m.args <;> rfl
  · rfl

theorem le_maxTime (c : ℚ) (ms : List Message) : c ≤ maxTime c ms := by
  induction ms generalizing c with
  | nil => exact le_refl c
  | cons m ms ih => exact le_trans (le_max_left c m.time) (ih (max c m.time))

theorem time_le_maxTime (c : ℚ) (ms : List Message) :
    ∀ m ∈ ms, m.time ≤ maxTime c ms := by
  induction ms generalizing c with
  | nil => intro m hm; cases hm
  | cons a ms ih =>
    intro m hm
    rcases List.mem_cons.mp hm with rfl | hm
    · exact le_trans (le_max_right c m.time) (le_maxTime (max c m.time) ms)
    · exact ih (max c a.time) m hm

theorem maxTime_mem (c : ℚ) (ms : List Message) :
    maxTime c ms = c ∨ ∃ m ∈ ms, maxTime c ms = m.time := by
  induction ms generalizing c with
  | nil => exact Or.inl rfl
  | cons a ms ih =>
    rcases ih (max c a.time) with h | ⟨m, hm, h⟩
    · rcases max_choice c a.time with hc | ha
      · exact Or.inl (h.trans hc)
      · exact Or.inr ⟨a, List.mem_cons_self a ms, h.trans ha⟩
    · exact Or.inr ⟨m, List.mem_cons_of_mem a hm, h⟩

theorem maxTime_append (c : ℚ) (xs ys : List Message) :
    maxTime c (xs ++ ys) = maxTime (maxTime c xs) ys := by
  simp [maxTime, List.foldl_append]

theorem loop_cons (h : Host) (m : Message) (ms : List Message) (s : State) :
    loop h (m :: ms) s =
      if (dispatch h m { s with last_time := max s.last_time m.time }).raised then
        dispatch h m { s with last_time := max s.last_time m.time }
      else loop h ms (dispatch h m { s with last_time := max s.last_time m.time }).state :=
  rfl

/-- The checkpoint never goes down inside the message loop. -/
theorem loop_last_time_le (h : Host) (ms : List Message) (s : State) :
    s.last_time ≤ (loop h ms s).state.last_time := by
  induction ms generalizing s with
  | nil => exact le_refl _
  | cons m ms ih =>
    rw [loop_cons]
    split_ifs
    · rw [dispatch_last_time]; exact le_max_left _ _
    · refine le_trans ?_ (ih _)
      rw [dispatch_last_time]; exact le_max_left _ _

/-- A loop that ran to its end leaves the greatest timestamp in `last_time`. -/
theorem loop_last_time_of_ok (h : Host) (ms : List Message) (s : State)
    (hok : (loop h ms s).raised = false) :
    (loop h ms s).state.last_time = maxTime s.last_time ms := by
  induction ms generalizing s with
  | nil => rfl
  | cons m ms ih =>
    rw [loop_cons] at hok ⊢
    split_ifs at hok ⊢ with hr
    · rw [hr] at hok; cases hok
    · rw [ih _ hok, dispatch_last_time]; rfl

/-- Messages after a batch prefix that ran to its end see the state the prefix
left. -/
theorem loop_append (h : Host) (pre post : List Message) (s : State)
    (hok : (loop h pre s).raised = false) :
    loop h (pre ++ post) s = loop h post (loop h pre s).state := by
  induction pre generalizing s with
  | nil => rfl
  | cons m ms ih =>
    rw [List.cons_append, loop_cons]
    rw [loop_cons] at hok ⊢
    split_ifs at hok ⊢ with hr
    · rw [hr] at hok; cases hok
    · exact ih _ hok

theorem poll_last_time_le (h : Host) (f : Fetch) (s : State) :
    s.last_time ≤ (poll_messages h f s).state.last_time := by
  unfold poll_messages
  split
  · exact le_refl _
  · exact le_refl _
  · exact le_refl _
  · split_ifs
    · exact loop_last_time_le h _ s
    · exact le_refl _

theorem run_append (h : Host) (fs gs : List Fetch) (s : State) :
    run h (fs ++ gs) s = run h gs (run h fs s) := by
  induction fs generalizing s with
  | nil => rfl
  | cons f fs ih => exact ih _

/-- Claim C1: whatever the starting state and whatever the outcomes of the
successive fetches (a rejected request, an undecodable body, an empty batch, a
batch dispatched to its end, a batch cut short by an exception), `last_time`
after cycle `n + 1` is at least `last_time` after cycle `n`; in particular one
call of `poll_messages` never lowers it. -/
theorem C1_checkpoint_monotone (h : Host) (cycles : List Fetch) (s : State) (n : Nat) :
    (run h (cycles.take n) s).last_time ≤ (run h (cycles.take (n + 1)) s).last_time
    ∧ ∀ f : Fetch, s.last_time ≤ (poll_messages h f s).state.last_time := by
  refine ⟨?_, fun f => poll_last_time_le h f s⟩
  rw [List.take_succ, run_append]
  cases cycles[n]? with
  | none => exact le_refl _
  | some f => exact poll_last_time_le h f _

/-- Claim C2: when `poll_messages` dispatches a batch to its end (no branch
throws, whatever the command names), `last_time` afterwards is the maximum of
its previous value and the timestamps of all messages of the batch: it bounds
all of them and is one of them. For an empty batch it keeps its value, which at
start-up is `Date.now() / 1000`. -/
theorem C2_checkpoint_is_batch_maximum (h : Host) (status : Nat) (ms : List Message)
    (s : State)
    (hok : (poll_messages h (.response status (.json (some ms))) s).raised = false) :
    (poll_messages h (.response status (.json (some ms))) s).state.last_time
        = maxTime s.last_time ms
    ∧ s.last_time ≤ maxTime s.last_time ms
    ∧ (∀ m ∈ ms, m.time ≤ maxTime s.last_time ms)
    ∧ (maxTime s.last_time ms = s.last_time ∨ ∃ m ∈ ms, maxTime s.last_time ms = m.time)
    ∧ (poll_messages h (.response status (.json (some []))) s).state.last_time = s.last_time
    ∧ ∀ now nodes,
        (poll_messages h (.response status (.json (some []))) (init now nodes)).state.last_time
          = now / 1000 := by
  refine ⟨?_, le_maxTime _ _, time_le_maxTime _ _, maxTime_mem _ _, rfl, fun _ _ => rfl⟩
  cases ms with
  | nil => rfl
  | cons m ms =>
    have hpoll : poll_messages h (.response status (.json (some (m :: ms)))) s
        = loop h (m :: ms) s := by
      simp [poll_messages]
    rw [hpoll] at hok ⊢
    exact loop_last_time_of_ok h _ s hok

/-- Witness for C2: a batch of a `create_loader`, an unknown command and a
`refresh`, from checkpoint 5, ends with checkpoint 9. -/
theorem C2_checkpoint_is_batch_maximum_witness :
    (poll_messages exampleHost
        (.response 200 (.json (some [createMsg 7 "a.png".toList, unknownMsg 9, refreshMsg 6 "a.png".toList])))
        (emptyState 5)).raised = false
    ∧ (poll_messages exampleHost
        (.response 200 (.json (some [createMsg 7 "a.png".toList, unknownMsg 9, refreshMsg 6 "a.png".toList])))
        (emptyState 5)).state.last_time = 9 :=
  ⟨by decide,
   (C2_checkpoint_is_batch_maximum exampleHost 200
      [createMsg 7 "a.png".toList, unknownMsg 9, refreshMsg 6 "a.png".toList] (emptyState 5)
      (by decide)).1.trans (by decide)⟩

/-- Claim C3, refuted as stated: in the batch `create_loader a.png` (time 1),
`refresh` without a payload (time 2), `create_loader b.png` (time 3), the
second message throws, the third is never dispatched (the graph holds the one
node of the first message) and `last_time` stops at 2, below the third
timestamp. -/
theorem C3_counterexample :
    (poll_messages exampleHost
        (okBatch [createMsg 1 "a.png".toList, refreshNoArgs 2, createMsg 3 "b.png".toList])
        (emptyState 0)).raised = true
    ∧ (poll_messages exampleHost
        (okBatch [createMsg 1 "a.png".toList, refreshNoArgs 2, createMsg 3 "b.png".toList])
        (emptyState 0)).state.nodes
      = (poll_messages exampleHost (okBatch [createMsg 1 "a.png".toList]) (emptyState 0)).state.nodes
    ∧ (poll_messages exampleHost
        (okBatch [createMsg 1 "a.png".toList, refreshNoArgs 2, createMsg 3 "b.png".toList])
        (emptyState 0)).state.nodes.length = 1
    ∧ ¬ ((createMsg 3 "b.png".toList).time ≤
        (poll_messages exampleHost
          (okBatch [createMsg 1 "a.png".toList, refreshNoArgs 2, createMsg 3 "b.png".toList])
          (emptyState 0)).state.last_time) := by
  refine ⟨by decide, ?_, by decide, by decide⟩
  rfl

/-- Claim C3, amended: when the messages `pre` of a batch run without an
exception and the branch of the next message `m` throws, `poll_messages` has
applied `pre` in order (`m` sees the state `pre` alone leaves), dispatches
nothing of the messages `post` after `m`, and ends with `last_time` the maximum
of its previous value and the timestamps of `pre` and `m`, so at least each of
those. -/
theorem C3_batch_stops_at_first_exception (h : Host) (status : Nat)
    (pre post : List Message) (m : Message) (s : State)
    (hpre : (loop h pre s).raised = false)
    (hm : (dispatch h m { (loop h pre s).state with
            last_time := max (loop h pre s).state.last_time m.time }).raised = true) :
    poll_messages h (.response status (.json (some (pre ++ m :: post)))) s
        = dispatch h m { (loop h pre s).state with
            last_time := max (loop h pre s).state.last_time m.time }
    ∧ (poll_messages h (.response status (.json (some (pre ++ m :: post)))) s).raised = true
    ∧ (poll_messages h (.response status (.json (some (pre ++ m :: post)))) s).state.last_time
        = maxTime s.last_time (pre ++ [m])
    ∧ ∀ x ∈ pre ++ [m], x.time ≤
        (poll_messages h (.response status (.json (some (pre ++ m :: post)))) s).state.last_time := by
  have hpoll : poll_messages h (.response status (.json (some (pre ++ m :: post)))) s
      = dispatch h m { (loop h pre s).state with
            last_time := max (loop h pre s).state.last_time m.time } := by
    have hlen : (pre ++ m :: post).length > 0 := by simp
    simp only [poll_messages, hlen, if_true]
    rw [loop_append h pre (m :: post) s hpre, loop_cons, if_pos hm]
  have htime : (poll_messages h (.response status (.json (some (pre ++ m :: post)))) s).state.last_time
      = maxTime s.last_time (pre ++ [m]) := by
    rw [hpoll, dispatch_last_time, maxTime_append, ← loop_last_time_of_ok h pre s hpre]
    rfl
  refine ⟨hpoll, by rw [hpoll]; exact hm, htime, ?_⟩
  intro x hx
  rw [htime]
  exact time_le_maxTime _ _ x hx

/-- Witness for the amended C3: the three-message batch whose second message
has no payload. -/
theorem C3_batch_stops_at_first_exception_witness :
    (loop exampleHost [createMsg 1 "a.png".toList] (emptyState 0)).raised = false
    ∧ (poll_messages exampleHost
        (.response 200 (.json (some ([createMsg 1 "a.png".toList] ++ refreshNoArgs 2 :: [createMsg 3 "b.png".toList]))))
        (emptyState 0)).state.last_time
        = maxTime (emptyState 0).last_time ([createMsg 1 "a.png".toList] ++ [refreshNoArgs 2]) :=
  ⟨by decide,
   (C3_batch_stops_at_first_exception exampleHost 200 [createMsg 1 "a.png".toList]
      [createMsg 3 "b.png".toList] (refreshNoArgs 2) (emptyState 0) (by decide) (by decide)).2.2.1⟩

/-- Claim C4, refuted as stated: a response with status 500 whose body decodes
to a batch is dispatched like any other; the checkpoint moves from 0 to 4 and a
node is added to the empty graph. -/
theorem C4_counterexample :
    (poll_messages exampleHost (.response 500 (.json (some [createMsg 4 "a.png".toList])))
        (emptyState 0)).state.last_time = 4
    ∧ (poll_messages exampleHost (.response 500 (.json (some [createMsg 4 "a.png".toList])))
        (emptyState 0)).state.nodes.length = 1
    ∧ (poll_messages exampleHost (.response 500 (.json (some [createMsg 4 "a.png".toList])))
        (emptyState 0)).state ≠ emptyState 0 := by
  refine ⟨by decide, by decide, ?_⟩
  intro hEq
  have hlen := congrArg (fun st => st.nodes.length) hEq
  revert hlen
  decide

/-- A body whose `messages` is the string `abc`, from checkpoint 5: the three
characters are fed to `Math.max` and `last_time` ends as `NaN`; nothing is
dispatched. -/
theorem poll_messages_any_text_example :
    poll_messages_any exampleHost (.text 200 "abc".toList) (emptyState 5)
      = ⟨.nan, [], 0, false⟩ := by
  decide

/-- Claim C4, amended: a rejected request, a body that is not JSON, and a JSON
body whose `messages` is absent or null, or is a number, a boolean or an
object that is not an array, each leave the checkpoint and the graph as they
were (nothing is dispatched), whatever the status; the status itself is never
looked at, so two responses with the same body are treated alike. -/
theorem C4_failed_fetch_changes_nothing (h : Host) (s : State) (status status' : Nat)
    (body : Body) (messages : Str) (enters : Bool) :
    (poll_messages h .rejected s).state = s
    ∧ (poll_messages h (.response status .malformed) s).state = s
    ∧ (poll_messages h (.response status (.json none)) s).state = s
    ∧ poll_messages h (.response status body) s = poll_messages h (.response status' body) s
    ∧ poll_messages_any h (.typed .rejected) s = ⟨.num s.last_time, s.nodes, s.calls, false⟩
    ∧ poll_messages_any h (.typed (.response status .malformed)) s
        = ⟨.num s.last_time, s.nodes, s.calls, true⟩
    ∧ poll_messages_any h (.typed (.response status (.json none))) s
        = ⟨.num s.last_time, s.nodes, s.calls, true⟩
    ∧ poll_messages_any h (.other status enters) s
        = ⟨.num s.last_time, s.nodes, s.calls, enters⟩
    ∧ poll_messages_any h (.typed (.response status body)) s
        = poll_messages_any h (.typed (.response status' body)) s
    ∧ poll_messages_any h (.text status messages) s
        = poll_messages_any h (.text status' messages) s
    ∧ poll_messages_any h (.other status enters) s
        = poll_messages_any h (.other status' enters) s := by
  have hbody : poll_messages h (.response status body) s
      = poll_messages h (.response status' body) s := by
    cases body with
    | malformed => rfl
    | json ms => cases ms <;> rfl
  refine ⟨rfl, rfl, rfl, hbody, rfl, rfl, rfl, rfl, ?_, rfl, rfl⟩
  simp only [poll_messages_any, hbody]

/-! ## Splitting a path -/

theorem split_ne_nil (sep : Char) (v : Str) : split sep v ≠ [] := by
  cases v with
  | nil => simp [split]
  | cons c cs =>
    unfold split
    split_ifs
    · simp
    · cases split sep cs <;> simp

theorem split_cons_sep (sep : Char) (cs : Str) :
    split sep (sep :: cs) = [] :: split sep cs := by
  rw [split, if_pos rfl]

theorem split_cons_ne (sep c : Char) (cs : Str) (hc : c ≠ sep) :
    ∃ seg rest, split sep cs = seg :: rest ∧ split sep (c :: cs) = (c :: seg) :: rest := by
  cases hs : split sep cs with
  | nil => exact absurd hs (split_ne_nil sep cs)
  | cons seg rest =>
    refine ⟨seg, rest, rfl, ?_⟩
    rw [split, if_neg hc, hs]

/-- A string without the separator is its own single segment. -/
theorem split_of_not_mem (sep : Char) (a : Str) (ha : sep ∉ a) : split sep a = [a] := by
  induction a with
  | nil => rfl
  | cons c cs ih =>
    have hc : c ≠ sep := fun hEq => ha (hEq ▸ List.mem_cons_self c cs)
    have hcs : sep ∉ cs := fun hm => ha (List.mem_cons_of_mem c hm)
    obtain ⟨seg, rest, h1, h2⟩ := split_cons_ne sep c cs hc
    rw [ih hcs] at h1
    cases h1
    exact h2

/-- The text before the first separator is the first segment. -/
theorem split_append (sep : Char) (a t : Str) (ha : sep ∉ a) :
    split sep (a ++ sep :: t) = a :: split sep t := by
  induction a with
  | nil => exact split_cons_sep sep t
  | cons c cs ih =>
    have hc : c ≠ sep := fun hEq => ha (hEq ▸ List.mem_cons_self c cs)
    have hcs : sep ∉ cs := fun hm => ha (List.mem_cons_of_mem c hm)
    obtain ⟨seg, rest, h1, h2⟩ := split_cons_ne sep c (cs ++ sep :: t) hc
    rw [ih hcs] at h1
    cases h1
    exact h2

theorem getLast?_cons_of_ne_nil {α : Type} (a : α) (l : List α) (hl : l ≠ []) :
    (a :: l).getLast? = l.getLast? := by
  cases l with
  | nil => exact absurd rfl hl
  | cons b l => simp [List.getLast?_cons_cons]

/-- The last segment of a string is the last segment of what follows any of
its separators. -/
theorem split_getLast?_append (sep : Char) (pre t : Str) :
    (split sep (pre ++ sep :: t)).getLast? = (split sep t).getLast?
    ∧ 2 ≤ (split sep (pre ++ sep :: t)).length := by
  induction pre with
  | nil =>
    rw [List.nil_append, split_cons_sep]
    refine ⟨getLast?_cons_of_ne_nil _ _ (split_ne_nil sep t), ?_⟩
    have hpos := List.length_pos.mpr (split_ne_nil sep t)
    simp only [List.length_cons]
    omega
  | cons c cs ih =>
    by_cases hc : c = sep
    · subst hc
      rw [List.cons_append, split_cons_sep]
      refine ⟨?_, ?_⟩
      · rw [getLast?_cons_of_ne_nil _ _ (split_ne_nil _ _)]; exact ih.1
      · simp only [List.length_cons]; omega
    · obtain ⟨seg, rest, h1, h2⟩ := split_cons_ne sep c (cs ++ sep :: t) hc
      rw [List.cons_append, h2]
      rw [h1] at ih
      have hrest : rest ≠ [] := by
        intro hEq
        rw [hEq] at ih
        simp at ih
      refine ⟨?_, ?_⟩
      · rw [getLast?_cons_of_ne_nil _ _ hrest, ← ih.1, getLast?_cons_of_ne_nil _ _ hrest]
      · simpa using ih.2

/-- What `n.split("/").at(-1)` picks is the last segment. -/
theorem split_getLast?_of_isLastSegment (v seg : Str) (hseg : IsLastSegment v seg) :
    (split '/' v).getLast? = some seg := by
  obtain ⟨hno, rfl | ⟨pre, rfl⟩⟩ := hseg
  · rw [split_of_not_mem _ _ hno]; rfl
  · rw [(split_getLast?_append '/' pre seg).1, split_of_not_mem _ _ hno]; rfl

/-- Every string has a last segment. -/
theorem exists_isLastSegment (v : Str) : ∃ seg, IsLastSegment v seg := by
  induction v with
  | nil => exact ⟨[], by simp, Or.inl rfl⟩
  | cons c cs ih =>
    obtain ⟨seg, hno, rfl | ⟨pre, rfl⟩⟩ := ih
    · by_cases hc : c = '/'
      · exact ⟨cs, hno, Or.inr ⟨[], by rw [hc]; rfl⟩⟩
      · refine ⟨c :: cs, ?_, Or.inl rfl⟩
        intro hm
        rcases List.mem_cons.mp hm with hEq | hm
        · exact hc hEq.symm
        · exact hno hm
    · exact ⟨seg, hno, Or.inr ⟨c :: pre, rfl⟩⟩

theorem checker_of_isLastSegment (v seg : Str) (hseg : IsLastSegment v seg) :
    checker (.str v) = some ("imgtemp".toList.isPrefixOf seg) := by
  simp only [checker, split_getLast?_of_isLastSegment v seg hseg]

/-- Claim C6, where the code departs from it: `"img.png"` gives subfolder `""`
and filename `"img.png"`, but `"a/b/c.png"` gives subfolder `"a"` and filename
`"b"`, not `"b/c.png"`, and subfolder + "/" + filename is `"a/b"`, not the path.
In general a path without "/" is all filename, a path with one "/" is cut
there, and of a path with two or more only the first two segments are kept. -/
theorem C6_splitPath_keeps_two_segments :
    splitPath "img.png".toList = ("".toList, "img.png".toList)
    ∧ splitPath "a/b/c.png".toList = ("a".toList, "b".toList)
    ∧ splitPath "a/b/c.png".toList ≠ ("a".toList, "b/c.png".toList)
    ∧ (splitPath "a/b/c.png".toList).1 ++ "/".toList ++ (splitPath "a/b/c.png".toList).2
        ≠ "a/b/c.png".toList
    ∧ (∀ p : Str, '/' ∉ p → splitPath p = ([], p))
    ∧ (∀ a b : Str, '/' ∉ a → '/' ∉ b → splitPath (a ++ '/' :: b) = (a, b))
    ∧ (∀ a b c : Str, '/' ∉ a → '/' ∉ b → splitPath (a ++ '/' :: (b ++ '/' :: c)) = (a, b)) := by
  refine ⟨by decide, by decide, by decide, by decide, ?_, ?_, ?_⟩
  · intro p hp
    simp only [splitPath, split_of_not_mem _ _ hp]
  · intro a b ha hb
    simp only [splitPath, split_append _ _ _ ha, split_of_not_mem _ _ hb]
  · intro a b c ha hb
    have hne := split_ne_nil '/' c
    cases hc : split '/' c with
    | nil => exact absurd hc hne
    | cons x xs => simp only [splitPath, split_append _ _ _ ha, split_append _ _ _ hb]

/-- Claim C7, refuted as stated: the default checker does match the value
`"imgtemp_1234.png_final"`. -/
theorem C7_counterexample :
    checker (.str "imgtemp_1234.png_final".toList) = some true := by
  decide

/-- Claim C7, amended: the default checker matches `"imgtemp_1234.png"` and
also `"imgtemp_1234.png_final"` (both start with the prefix) and does not match
`"final_imgtemp.png"`. -/
theorem C7_checker_examples :
    checker (.str "imgtemp_1234.png".toList) = some true
    ∧ checker (.str "imgtemp_1234.png_final".toList) = some true
    ∧ checker (.str "final_imgtemp.png".toList) = some false := by
  decide

/-- Claim C8: on every string `v` the default checker (the one `refresh_all`
uses, whatever the argument object) answers without throwing, and answers true
exactly when the last "/"-separated segment of `v` starts with `"imgtemp"`;
`"imgtemp/x.png"` and `"dir/final_imgtemp.png"` are rejected and
`"dir/imgtemp_1.png"` is accepted. -/
theorem C8_checker_is_prefix_of_last_segment (v : Str) :
    (∃ seg, IsLastSegment v seg)
    ∧ (∀ seg, IsLastSegment v seg →
        (checker (.str v) = some true ↔ "imgtemp".toList <+: seg)
        ∧ (checker (.str v) = some false ↔ ¬ "imgtemp".toList <+: seg))
    ∧ (∀ a : Args, checkerFor "refresh_all".toList a = checker)
    ∧ checker (.str "imgtemp/x.png".toList) = some false
    ∧ checker (.str "dir/final_imgtemp.png".toList) = some false
    ∧ checker (.str "dir/imgtemp_1.png".toList) = some true := by
  refine ⟨exists_isLastSegment v, ?_, ?_, by decide, by decide, by decide⟩
  · intro seg hseg
    rw [checker_of_isLastSegment v seg hseg]
    constructor
    · rw [Option.some.injEq, List.isPrefixOf_iff_prefix]
    · rw [Option.some.injEq, ← List.isPrefixOf_iff_prefix, Bool.not_eq_true]
  · intro a
    have hne : "refresh_all".toList ≠ "refresh".toList := by decide
    simp only [checkerFor, if_neg hne]

/-! ## The refresh branch -/

theorem getParam_setParam (name value : Str) (ps : List (Str × Str)) :
    getParam name (setParam name value ps) = some value := by
  induction ps with
  | nil => simp [setParam, getParam]
  | cons kv ps ih =>
    obtain ⟨k, v⟩ := kv
    by_cases hk : k = name
    · simp [setParam, getParam, hk]
    · simp [setParam, getParam, hk, ih]

theorem filter_setParam (name value : Str) (ps : List (Str × Str)) :
    (setParam name value ps).filter (fun q => q.1 ≠ name) = ps.filter (fun q => q.1 ≠ name) := by
  induction ps with
  | nil => simp [setParam]
  | cons kv ps ih =>
    obtain ⟨k, v⟩ := kv
    by_cases hk : k = name
    · simp [setParam, hk]
    · simp only [setParam, if_neg hk, List.filter_cons, ih]

theorem setParam_setParam (name v1 v2 : Str) (ps : List (Str × Str)) :
    setParam name v2 (setParam name v1 ps) = setParam name v2 ps := by
  induction ps with
  | nil => simp [setParam]
  | cons kv ps ih =>
    obtain ⟨k, v⟩ := kv
    by_cases hk : k = name
    · simp [setParam, hk]
    · simp [setParam, hk, ih]

/-- After `searchParams.set` exactly one pair carries the name. -/
theorem countP_setParam (name value : Str) (ps : List (Str × Str)) :
    (setParam name value ps).countP (fun q => decide (q.1 = name)) = 1 := by
  induction ps with
  | nil => simp [setParam]
  | cons kv ps ih =>
    obtain ⟨k, v⟩ := kv
    by_cases hk : k = name
    · simp only [setParam, if_pos hk, List.countP_cons, decide_True, if_true]
      have hzero : List.countP (fun q => decide (q.1 = name))
          (List.filter (fun q => decide (q.1 ≠ name)) ps) = 0 := by
        rw [List.countP_eq_zero]
        intro q hq
        have hne := (List.mem_filter.mp hq).2
        simpa using hne
      rw [hzero]
    · simp only [setParam, if_neg hk, List.countP_cons, decide_eq_true_eq, hk, if_false, ih,
        Nat.add_zero]

theorem setRand_setRand (r1 r2 : Str) (img : Image) :
    setRand r2 (setRand r1 img) = setRand r2 img := by
  simp [setRand, setParam_setParam]

theorem cut_of_not_mem (sep : Char) (a : Str) (ha : sep ∉ a) : cut sep a = (a, none) := by
  induction a with
  | nil => rfl
  | cons c cs ih =>
    have hc : c ≠ sep := fun hEq => ha (hEq ▸ List.mem_cons_self c cs)
    have hcs : sep ∉ cs := fun hm => ha (List.mem_cons_of_mem c hm)
    simp only [cut, if_neg hc, ih hcs]

theorem cut_append (sep : Char) (a t : Str) (ha : sep ∉ a) :
    cut sep (a ++ sep :: t) = (a, some t) := by
  induction a with
  | nil => simp [cut]
  | cons c cs ih =>
    have hc : c ≠ sep := fun hEq => ha (hEq ▸ List.mem_cons_self c cs)
    have hcs : sep ∉ cs := fun hm => ha (List.mem_cons_of_mem c hm)
    rw [List.cons_append, cut, if_neg hc, ih hcs]

/-- A segment of a string holds only characters of the string. -/
theorem mem_of_mem_split (sep : Char) (v : Str) :
    ∀ seg ∈ split sep v, ∀ c ∈ seg, c ∈ v := by
  induction v with
  | nil =>
    intro seg hseg c hc
    simp only [split, List.mem_singleton] at hseg
    rw [hseg] at hc
    exact hc
  | cons a as ih =>
    intro seg hseg c hc
    by_cases ha : a = sep
    · rw [ha, split_cons_sep] at hseg
      rcases List.mem_cons.mp hseg with rfl | hseg
      · cases hc
      · exact List.mem_cons_of_mem _ (ih seg hseg c hc)
    · obtain ⟨s0, rest, h1, h2⟩ := split_cons_ne sep a as ha
      rw [h2] at hseg
      rcases List.mem_cons.mp hseg with rfl | hseg
      · rcases List.mem_cons.mp hc with rfl | hc
        · exact List.mem_cons_self _ _
        · exact List.mem_cons_of_mem _ (ih s0 (by rw [h1]; exact List.mem_cons_self _ _) c hc)
      · exact List.mem_cons_of_mem _
          (ih seg (by rw [h1]; exact List.mem_cons_of_mem _ hseg) c hc)

theorem plain_splitPath (p : Str) (hp : Plain p) :
    Plain (splitPath p).1 ∧ Plain (splitPath p).2 := by
  have hmem := mem_of_mem_split '/' p
  unfold splitPath
  cases hs : split '/' p with
  | nil => exact ⟨fun c hc => (by cases hc), fun c hc => (by cases hc)⟩
  | cons a rest =>
    rw [hs] at hmem
    cases rest with
    | nil =>
      exact ⟨fun c hc => (by cases hc),
        fun c hc => hp c (hmem a (List.mem_cons_self _ _) c hc)⟩
    | cons b rest =>
      exact ⟨fun c hc => hp c (hmem a (List.mem_cons_self _ _) c hc),
        fun c hc => hp c (hmem b (List.mem_cons_of_mem _ (List.mem_cons_self _ _)) c hc)⟩

theorem viewQuery_eq (a b : Str) :
    viewQuery a b = ("filename=".toList ++ b) ++ '&' ::
      ("type=input".toList ++ '&' :: (("subfolder=".toList ++ a) ++ '&' :: "rand=0.0".toList)) := by
  simp [viewQuery]

theorem viewQuery_forall (P : Char → Prop) (a b : Str)
    (hlit : ∀ c ∈ "filename=&type=input&subfolder=&rand=0.0".toList, P c)
    (ha : ∀ c ∈ a, P c) (hb : ∀ c ∈ b, P c) : ∀ c ∈ viewQuery a b, P c := by
  have h1 : ∀ c ∈ "filename=".toList, c ∈ "filename=&type=input&subfolder=&rand=0.0".toList := by
    decide
  have h2 : ∀ c ∈ "&type=input&subfolder=".toList,
      c ∈ "filename=&type=input&subfolder=&rand=0.0".toList := by
    decide
  have h3 : ∀ c ∈ "&rand=0.0".toList, c ∈ "filename=&type=input&subfolder=&rand=0.0".toList := by
    decide
  intro c hc
  unfold viewQuery at hc
  rcases List.mem_append.mp hc with hc | hc
  · rcases List.mem_append.mp hc with hc | hc
    · rcases List.mem_append.mp hc with hc | hc
      · rcases List.mem_append.mp hc with hc | hc
        · exact hlit c (h1 c hc)
        · exact hb c hc
      · exact hlit c (h2 c hc)
    · exact ha c hc
  · exact hlit c (h3 c hc)

theorem plusToSpace_of_plain (s : Str) (hs : Plain s) : plusToSpace s = s := by
  induction s with
  | nil => rfl
  | cons c cs ih =>
    have hc := hs c (List.mem_cons_self c cs)
    have hcs : Plain cs := fun x hx => hs x (List.mem_cons_of_mem c hx)
    have ih' := ih hcs
    unfold plusToSpace at ih' ⊢
    rw [List.map_cons, if_neg hc.2.2.2.1, ih']

theorem decode_of_plain (h : Host) (s : Str) (hs : Plain s) : decode h s = s := by
  have hno : '%' ∉ s := fun hm => (hs '%' hm).2.2.1 rfl
  simp only [decode, if_neg hno]

/-- What `new URL` reads from the string of line 60 when the two parts of the
path are plain: the four parameters as written, and no fragment. -/
theorem parseTail_viewQuery (h : Host) (a b : Str) (ha : Plain a) (hb : Plain b) :
    parseTail h (viewQuery a b) =
      ([("filename".toList, b), ("type".toList, "input".toList),
        ("subfolder".toList, a), ("rand".toList, "0.0".toList)], none) := by
  have hfilter : (viewQuery a b).filter (fun c => !isTabOrNewline c) = viewQuery a b := by
    rw [List.filter_eq_self]
    intro c hc
    have hP := viewQuery_forall (fun c => isTabOrNewline c = false) a b (by decide)
      (fun c hc => (ha c hc).2.2.2.2) (fun c hc => (hb c hc).2.2.2.2) c hc
    simp only [hP, Bool.not_false]
  have hhash : '#' ∉ viewQuery a b := by
    intro hm
    exact viewQuery_forall (fun c => c ≠ '#') a b (by decide)
      (fun c hc => (ha c hc).2.1) (fun c hc => (hb c hc).2.1) '#' hm rfl
  have hamp1 : '&' ∉ "filename=".toList ++ b := by
    intro hm
    rcases List.mem_append.mp hm with hm | hm
    · revert hm; decide
    · exact (hb '&' hm).1 rfl
  have hamp2 : '&' ∉ "type=input".toList := by decide
  have hamp3 : '&' ∉ "subfolder=".toList ++ a := by
    intro hm
    rcases List.mem_append.mp hm with hm | hm
    · revert hm; decide
    · exact (ha '&' hm).1 rfl
  have hamp4 : '&' ∉ "rand=0.0".toList := by decide
  have hsplit : split '&' (viewQuery a b) =
      ["filename=".toList ++ b, "type=input".toList, "subfolder=".toList ++ a,
       "rand=0.0".toList] := by
    rw [viewQuery_eq, split_append _ _ _ hamp1, split_append _ _ _ hamp2,
      split_append _ _ _ hamp3, split_of_not_mem _ _ hamp4]
  have hcut1 : cut '=' ("filename=".toList ++ b) = ("filename".toList, some b) :=
    cut_append '=' "filename".toList b (by decide)
  have hcut3 : cut '=' ("subfolder=".toList ++ a) = ("subfolder".toList, some a) :=
    cut_append '=' "subfolder".toList a (by decide)
  have hp1 : parsePair h ("filename=".toList ++ b) = ("filename".toList, b) := by
    simp only [parsePair, hcut1, Option.getD_some, plusToSpace_of_plain b hb,
      decode_of_plain h b hb]
    rfl
  have hp2 : parsePair h "type=input".toList = ("type".toList, "input".toList) := by
    rfl
  have hp3 : parsePair h ("subfolder=".toList ++ a) = ("subfolder".toList, a) := by
    simp only [parsePair, hcut3, Option.getD_some, plusToSpace_of_plain a ha,
      decode_of_plain h a ha]
    rfl
  have hp4 : parsePair h "rand=0.0".toList = ("rand".toList, "0.0".toList) := by
    rfl
  unfold parseTail
  rw [hfilter, cut_of_not_mem _ _ hhash]
  simp only [parseQuery, hsplit, Option.map_none']
  rw [List.filter_cons_of_pos (by simp), List.filter_cons_of_pos (by decide),
    List.filter_cons_of_pos (by simp), List.filter_cons_of_pos (by decide),
    List.filter_nil]
  simp only [List.map_cons, List.map_nil, hp1, hp2, hp3, hp4]

/-- The image built for a plain path, written out. -/
theorem newImage_of_plain (h : Host) (p : Str) (hp : Plain p) :
    newImage h p = ⟨⟨h.protocol ++ "//".toList ++ h.host ++ "/api/view".toList,
      [("filename".toList, (splitPath p).2), ("type".toList, "input".toList),
       ("subfolder".toList, (splitPath p).1), ("rand".toList, "0.0".toList)], none⟩⟩ := by
  have hparts := plain_splitPath p hp
  simp only [newImage, parseTail_viewQuery h _ _ hparts.1 hparts.2]

/-- One loop iteration of `refresh` with a string path: it throws on a
`Broken` node and on no other, rewrites a qualifying node and skips the
rest. -/
theorem refreshNode_refresh (h : Host) (p r : Str) (n : Node) :
    refreshNode h (checker_refresh (.str p)) r n =
      if Broken n then none
      else some (if Qualifies p n then
              ({ n with imgs := some [setRand r (baseImage h p n)] }, true)
            else (n, false)) := by
  obtain ⟨ty, ti, ws, im, pos⟩ := n
  by_cases ht : ty = "LoadImage".toList
  · cases ws with
    | none =>
      have hb : Broken ⟨ty, ti, none, im, pos⟩ := ⟨ht, rfl⟩
      rw [if_pos hb]
      simp only [refreshNode, ht, ne_eq, not_true_eq_false, if_false]
    | some ws =>
      have hb : ¬ Broken ⟨ty, ti, some ws, im, pos⟩ := fun hb => by cases hb.2
      rw [if_neg hb]
      cases ws with
      | nil =>
        have hq : ¬ Qualifies p ⟨ty, ti, some [], im, pos⟩ := fun hq => by
          simp [Qualifies] at hq
        rw [if_neg hq]
        simp only [refreshNode, ht, ne_eq, not_true_eq_false, if_false]
      | cons w ws =>
        by_cases hn : w.name = "image".toList
        · by_cases hv : w.value = .str p
          · have hq : Qualifies p ⟨ty, ti, some (w :: ws), im, pos⟩ :=
              ⟨ht, by simp, by simp [hn], by simp [hv]⟩
            rw [if_pos hq]
            simp only [refreshNode, ht, hn, hv, ne_eq, not_true_eq_false, if_false,
              checker_refresh, decide_True, baseImage]
            rcases im with _ | _ | ⟨img, _ | ⟨img2, l⟩⟩ <;> rfl
          · have hq : ¬ Qualifies p ⟨ty, ti, some (w :: ws), im, pos⟩ := fun hq =>
              hv (by simpa using hq.2.2.2)
            rw [if_neg hq]
            simp only [refreshNode, ht, hn, ne_eq, not_true_eq_false, if_false,
              checker_refresh, hv, decide_False]
        · have hq : ¬ Qualifies p ⟨ty, ti, some (w :: ws), im, pos⟩ := fun hq =>
            hn (by simpa using hq.2.2.1)
          rw [if_neg hq]
          simp only [refreshNode, ht, hn, ne_eq, not_true_eq_false, not_false_eq_true,
            if_false, if_true]
  · have hb : ¬ Broken ⟨ty, ti, ws, im, pos⟩ := fun hb => ht hb.1
    have hq : ¬ Qualifies p ⟨ty, ti, ws, im, pos⟩ := fun hq => ht hq.1
    rw [if_neg hb, if_neg hq]
    simp only [refreshNode, ht, ne_eq, not_false_eq_true, if_true]

/-- The whole node loop of `refresh` with a string path: the node list
`refreshed`, and an exception exactly when the list has a `Broken` node. -/
theorem refreshNodes_refresh (h : Host) (p : Str) (nodes : List Node) (c : Nat) :
    (refreshNodes h (checker_refresh (.str p)) nodes c).1 = refreshed h p nodes c
    ∧ ((refreshNodes h (checker_refresh (.str p)) nodes c).2.2 = true
        ↔ ∃ n ∈ nodes, Broken n) := by
  induction nodes generalizing c with
  | nil => exact ⟨rfl, by simp [refreshNodes]⟩
  | cons n ns ih =>
    rw [refreshNodes, refreshNode_refresh]
    by_cases hb : Broken n
    · simp only [hb, if_true, refreshed, true_and]
      exact ⟨fun _ => ⟨n, List.mem_cons_self _ _, hb⟩, fun _ => trivial⟩
    · by_cases hq : Qualifies p n
      · simp only [hb, hq, if_false, if_true, refreshed, (ih (c + 1)).1,
          List.exists_mem_cons_iff, false_or, true_and]
        exact (ih (c + 1)).2
      · simp only [hb, hq, if_false, refreshed, (ih c).1, List.exists_mem_cons_iff,
          false_or, true_and, Bool.false_eq_true]
        exact (ih c).2

theorem dispatch_refresh (h : Host) (s : State) (time : ℚ) (p : Str) :
    (dispatch h (refreshMsg time p) s).state.nodes = refreshed h p s.nodes s.calls
    ∧ ((dispatch h (refreshMsg time p) s).raised = true ↔ ∃ n ∈ s.nodes, Broken n) := by
  have h1 : "refresh".toList ≠ "create_loader".toList := by decide
  simp only [dispatch, refreshMsg, if_neg h1, checkerFor, if_true, or_true]
  exact refreshNodes_refresh h p s.nodes s.calls

theorem refreshed_length (h : Host) (p : Str) (nodes : List Node) (c : Nat) :
    (refreshed h p nodes c).length = nodes.length := by
  induction nodes generalizing c with
  | nil => rfl
  | cons n ns ih =>
    by_cases hb : Broken n
    · simp [refreshed, hb]
    · by_cases hq : Qualifies p n <;> simp [refreshed, hb, hq, ih]

/-- Node `i` after `refresh`, when the pass got as far as node `i`: the random
value it gets is the one whose index is the call count plus the number of
qualifying nodes before it. -/
theorem refreshed_getElem? (h : Host) (p : Str) (nodes : List Node) (c i : Nat) (n : Node)
    (hn : nodes[i]? = some n) (hreach : ∀ m ∈ nodes.take (i + 1), ¬ Broken m) :
    (refreshed h p nodes c)[i]? =
      some (if Qualifies p n then
              { n with imgs := some [setRand
                  (h.random (c + (nodes.take i).countP (fun x => decide (Qualifies p x))))
                  (baseImage h p n)] }
            else n) := by
  induction nodes generalizing c i with
  | nil => simp at hn
  | cons a as ih =>
    have hb : ¬ Broken a := hreach a (by simp)
    cases i with
    | zero =>
      simp only [List.getElem?_cons_zero, Option.some.injEq] at hn
      subst hn
      by_cases hq : Qualifies p a <;> simp [refreshed, hb, hq]
    | succ j =>
      simp only [List.getElem?_cons_succ] at hn
      have hreach' : ∀ m ∈ as.take (j + 1), ¬ Broken m := fun m hm =>
        hreach m (by rw [List.take_succ_cons]; exact List.mem_cons_of_mem _ hm)
      by_cases hq : Qualifies p a
      · simp only [refreshed, hb, hq, if_true, if_false, List.getElem?_cons_succ,
          List.take_succ_cons, List.countP_cons, decide_True]
        rw [ih (c + 1) j hn hreach']
        have hc : c + 1 + List.countP (fun x => decide (Qualifies p x)) (List.take j as)
            = c + (List.countP (fun x => decide (Qualifies p x)) (List.take j as) + 1) := by
          omega
        simp only [hc, if_true]
      · simp only [refreshed, hb, hq, if_false, List.getElem?_cons_succ, List.take_succ_cons,
          List.countP_cons, decide_False]
        rw [ih c j hn hreach']
        simp

/-- Node `i` after `refresh`, when the pass stopped at or before node `i`: it is
as it was. -/
theorem refreshed_getElem?_of_broken (h : Host) (p : Str) (nodes : List Node) (c i : Nat)
    (hstop : ∃ m ∈ nodes.take (i + 1), Broken m) :
    (refreshed h p nodes c)[i]? = nodes[i]? := by
  induction nodes generalizing c i with
  | nil => rfl
  | cons a as ih =>
    by_cases hb : Broken a
    · simp [refreshed, hb]
    · obtain ⟨m, hm, hbm⟩ := hstop
      cases i with
      | zero =>
        simp only [Nat.zero_add, List.take_succ_cons, List.take_zero,
          List.mem_singleton] at hm
        exact absurd (hm ▸ hbm) hb
      | succ j =>
        rw [List.take_succ_cons] at hm
        rcases List.mem_cons.mp hm with rfl | hm
        · exact absurd hbm hb
        · by_cases hq : Qualifies p a
          · simp only [refreshed, hb, hq, if_true, if_false, List.getElem?_cons_succ]
            exact ih (c + 1) j ⟨m, hm, hbm⟩
          · simp only [refreshed, hb, hq, if_false, List.getElem?_cons_succ]
            exact ih c j ⟨m, hm, hbm⟩

/-- Refreshing an already refreshed list gives what refreshing the original
list gives, whatever random values the first pass used. -/
theorem refreshed_refreshed (h1 h2 : Host) (hnew : ∀ p, newImage h2 p = newImage h1 p)
    (p : Str) (nodes : List Node) (c1 c2 : Nat) :
    refreshed h2 p (refreshed h1 p nodes c1) c2 = refreshed h2 p nodes c2 := by
  induction nodes generalizing c1 c2 with
  | nil => rfl
  | cons n ns ih =>
    by_cases hb : Broken n
    · simp only [refreshed, hb, if_true]
    · by_cases hq : Qualifies p n
      · have hq' : Qualifies p
            { n with imgs := some [setRand (h1.random c1) (baseImage h1 p n)] } := hq
        have hb' : ¬ Broken
            { n with imgs := some [setRand (h1.random c1) (baseImage h1 p n)] } := hb
        simp only [refreshed, hb, hq, if_true, if_false, if_pos hq', if_neg hb', ih]
        simp only [baseImage, setRand_setRand]
        rw [hnew]
      · simp only [refreshed, hb, hq, if_false, ih]

theorem baseImage_of_single (h : Host) (p : Str) (n : Node) (img0 : Image)
    (hn : n.imgs = some [img0]) : baseImage h p n = img0 := by
  simp only [baseImage, hn]

theorem baseImage_of_not_single (h : Host) (p : Str) (n : Node)
    (hn : ∀ img0 : Image, n.imgs ≠ some [img0]) : baseImage h p n = newImage h p := by
  unfold baseImage
  rcases hi : n.imgs with _ | _ | ⟨img, _ | ⟨img2, l⟩⟩
  · rfl
  · rfl
  · exact absurd hi (hn img)
  · rfl

/-- The image `refresh` leaves on a qualifying node is as the claims describe
it. -/
theorem rewritten_setRand (h : Host) (p r : Str) (n : Node) :
    Rewritten h p r n (setRand r (baseImage h p n)) := by
  refine ⟨getParam_setParam _ _ _, countP_setParam _ _ _, ?_, ?_, ?_⟩
  · intro img0 hn
    rw [baseImage_of_single h p n img0 hn]
    exact ⟨rfl, rfl, filter_setParam _ _ _⟩
  · intro hn
    rw [baseImage_of_not_single h p n hn]
    rfl
  · intro hn hp
    rw [baseImage_of_not_single h p n hn, newImage_of_plain h p hp]
    have h1 : "filename".toList ≠ "rand".toList := by decide
    have h2 : "type".toList ≠ "rand".toList := by decide
    have h3 : "subfolder".toList ≠ "rand".toList := by decide
    simp only [setRand, setParam, if_neg h1, if_neg h2, if_neg h3, if_true, List.filter_nil]

/-- What `refresh` does to node `i` when the pass reaches it. -/
theorem dispatch_refresh_reached (h : Host) (s : State) (time : ℚ) (p : Str) (i : Nat)
    (n : Node) (hn : s.nodes[i]? = some n) (hreach : ∀ m ∈ s.nodes.take (i + 1), ¬ Broken m) :
    (¬ Qualifies p n → (dispatch h (refreshMsg time p) s).state.nodes[i]? = some n)
    ∧ (Qualifies p n → ∃ img : Image,
        (dispatch h (refreshMsg time p) s).state.nodes[i]? = some { n with imgs := some [img] }
        ∧ img = setRand
            (h.random (s.calls + (s.nodes.take i).countP (fun x => decide (Qualifies p x))))
            (baseImage h p n)
        ∧ Rewritten h p
            (h.random (s.calls + (s.nodes.take i).countP (fun x => decide (Qualifies p x))))
            n img) := by
  rw [(dispatch_refresh h s time p).1]
  have hget := refreshed_getElem? h p s.nodes s.calls i n hn hreach
  constructor
  · intro hq
    rw [if_neg hq] at hget
    exact hget
  · intro hq
    rw [if_pos hq] at hget
    exact ⟨_, hget, rfl, rewritten_setRand h p _ n⟩

/-- Claim C5, where the code departs from it: on a graph whose first node has
type `LoadImage` and no `widgets` property, `refresh` throws at that node and
the loader at `sub/img.png` behind it is not refreshed. In general `refresh`
with a string path throws exactly when the graph has such a node, and it never
adds or drops a node. Every node the pass reaches is treated as the claim
says: a node of type `LoadImage` with a first widget named `image` holding
exactly `p` ends with one image whose `rand` is the next random value (its
previous single image otherwise unchanged, or the image built from `p`), and
any other node is left as it was. A node at or behind the node where the pass
stopped is left as it was. With two loaders at `sub/img.png` and one at
`other.png`, the first two get `rand` values and the third is untouched. -/
theorem C5_refresh_throws_on_loader_without_widgets (h : Host) (s : State) (time : ℚ)
    (p : Str) :
    (dispatch exampleHost (refreshMsg 1 "sub/img.png".toList) ⟨0, brokenGraph, 0⟩).raised = true
    ∧ (dispatch exampleHost (refreshMsg 1 "sub/img.png".toList) ⟨0, brokenGraph, 0⟩).state.nodes
        = brokenGraph
    ∧ ((dispatch h (refreshMsg time p) s).raised = true ↔ ∃ n ∈ s.nodes, Broken n)
    ∧ (dispatch h (refreshMsg time p) s).state.nodes.length = s.nodes.length
    ∧ (∀ (i : Nat) (n : Node), s.nodes[i]? = some n →
        (∀ m ∈ s.nodes.take (i + 1), ¬ Broken m) →
        (¬ Qualifies p n → (dispatch h (refreshMsg time p) s).state.nodes[i]? = some n)
        ∧ (Qualifies p n → ∃ img : Image,
            (dispatch h (refreshMsg time p) s).state.nodes[i]?
              = some { n with imgs := some [img] }
            ∧ img = setRand
                (h.random (s.calls + (s.nodes.take i).countP (fun x => decide (Qualifies p x))))
                (baseImage h p n)
            ∧ Rewritten h p
                (h.random (s.calls + (s.nodes.take i).countP (fun x => decide (Qualifies p x))))
                n img))
    ∧ (∀ i : Nat, (∃ m ∈ s.nodes.take (i + 1), Broken m) →
        (dispatch h (refreshMsg time p) s).state.nodes[i]? = s.nodes[i]?)
    ∧ (dispatch exampleHost (refreshMsg 1 "sub/img.png".toList) ⟨0, exampleGraph, 0⟩).state.nodes
        = [loaderNode "sub/img.png".toList (some [⟨⟨"http://localhost:8188/api/view".toList,
              [("filename".toList, "img.png".toList), ("type".toList, "input".toList),
               ("subfolder".toList, "sub".toList), ("rand".toList, "0.5".toList)], none⟩⟩]),
           loaderNode "sub/img.png".toList (some [⟨⟨"http://localhost:8188/api/view".toList,
              [("filename".toList, "img.png".toList), ("subfolder".toList, "sub".toList),
               ("rand".toList, "0.55".toList)], none⟩⟩]),
           loaderNode "other.png".toList none] := by
  refine ⟨by decide, by decide, (dispatch_refresh h s time p).2, ?_, ?_, ?_, by decide⟩
  · rw [(dispatch_refresh h s time p).1]
    exact refreshed_length h p s.nodes s.calls
  · intro i n hn hreach
    exact dispatch_refresh_reached h s time p i n hn hreach
  · intro i hstop
    rw [(dispatch_refresh h s time p).1]
    exact refreshed_getElem?_of_broken h p s.nodes s.calls i hstop

/-- Claim C10, where the code departs from it: after `refresh` on the graph
whose first node has type `LoadImage` and no `widgets` property, the matched
loader behind it still has no image. The rest of the claim holds on every
graph: a second `refresh p`, with any random values `ρ2` after any random
values `ρ1`, leaves the graph that one `refresh p` with `ρ2` leaves; the node
list keeps its length; and every matched node the pass reaches carries exactly
one image, its previous single image with only `rand` rewritten or else the
one built from the widget path, also after the second run. -/
theorem C10_refresh_idempotent_up_to_rand (h : Host) (ρ1 ρ2 : Nat → Str) (s : State)
    (c2 : Nat) (t1 t2 : ℚ) (p : Str) :
    (Qualifies "sub/img.png".toList (loaderNode "sub/img.png".toList none)
      ∧ (dispatch exampleHost (refreshMsg 1 "sub/img.png".toList)
          ⟨0, brokenGraph, 0⟩).state.nodes[1]?
        = some (loaderNode "sub/img.png".toList none))
    ∧ (dispatch { h with random := ρ2 } (refreshMsg t2 p)
        { (dispatch { h with random := ρ1 } (refreshMsg t1 p) s).state with calls := c2 }).state.nodes
      = (dispatch { h with random := ρ2 } (refreshMsg t2 p) { s with calls := c2 }).state.nodes
    ∧ (dispatch { h with random := ρ2 } (refreshMsg t2 p)
        { (dispatch { h with random := ρ1 } (refreshMsg t1 p) s).state with
            calls := c2 }).state.nodes.length = s.nodes.length
    ∧ (dispatch h (refreshMsg t1 p) s).state.nodes.length = s.nodes.length
    ∧ (∀ (i : Nat) (n : Node), s.nodes[i]? = some n → Qualifies p n →
        (∀ m ∈ s.nodes.take (i + 1), ¬ Broken m) →
        (∃ img : Image,
          (dispatch { h with random := ρ1 } (refreshMsg t1 p) s).state.nodes[i]?
            = some { n with imgs := some [img] }
          ∧ Rewritten h p
              (ρ1 (s.calls + (s.nodes.take i).countP (fun x => decide (Qualifies p x)))) n img)
        ∧ (∃ img : Image,
          (dispatch { h with random := ρ2 } (refreshMsg t2 p)
            { (dispatch { h with random := ρ1 } (refreshMsg t1 p) s).state with
                calls := c2 }).state.nodes[i]?
            = some { n with imgs := some [img] }
          ∧ Rewritten h p
              (ρ2 (c2 + (s.nodes.take i).countP (fun x => decide (Qualifies p x)))) n img)) := by
  have hnew : ∀ q, newImage { h with random := ρ2 } q = newImage { h with random := ρ1 } q :=
    fun _ => rfl
  have hidem : (dispatch { h with random := ρ2 } (refreshMsg t2 p)
        { (dispatch { h with random := ρ1 } (refreshMsg t1 p) s).state with
            calls := c2 }).state.nodes
      = (dispatch { h with random := ρ2 } (refreshMsg t2 p) { s with calls := c2 }).state.nodes := by
    rw [(dispatch_refresh _ _ t2 p).1, (dispatch_refresh _ _ t2 p).1,
      (dispatch_refresh _ _ t1 p).1]
    exact refreshed_refreshed { h with random := ρ1 } { h with random := ρ2 } hnew p
      s.nodes s.calls c2
  refine ⟨⟨by decide, by decide⟩, hidem, ?_, ?_, ?_⟩
  · rw [hidem, (dispatch_refresh _ _ t2 p).1]
    exact refreshed_length _ p s.nodes c2
  · rw [(dispatch_refresh h s t1 p).1]
    exact refreshed_length h p s.nodes s.calls
  · intro i n hn hq hreach
    constructor
    · obtain ⟨img, hget, _, hrw⟩ :=
        (dispatch_refresh_reached { h with random := ρ1 } s t1 p i n hn hreach).2 hq
      exact ⟨img, hget, hrw⟩
    · rw [hidem]
      obtain ⟨img, hget, _, hrw⟩ :=
        (dispatch_refresh_reached { h with random := ρ2 } { s with calls := c2 } t2 p i n hn
          hreach).2 hq
      exact ⟨img, hget, hrw⟩

/-! ## The size of the graph -/

/-- The node loop never adds or drops a node, with any checker, also when it
is cut short. -/
theorem refreshNodes_length (h : Host) (chk : JsVal → Option Bool) (nodes : List Node)
    (c : Nat) : (refreshNodes h chk nodes c).1.length = nodes.length := by
  induction nodes generalizing c with
  | nil => rfl
  | cons n ns ih =>
    rw [refreshNodes]
    cases refreshNode h chk (h.random c) n with
    | none => rfl
    | some res =>
      obtain ⟨n', drew⟩ := res
      simp only [List.length_cons, ih]

theorem dispatch_create (h : Host) (s : State) (time : ℚ) (p : Str) :
    dispatch h (createMsg time p) s
      = ⟨{ s with nodes := s.nodes ++ [newLoader h (.str p)] }, false⟩ := by
  simp only [dispatch, createMsg, if_true]

theorem dispatch_nodes_length_of_ne (h : Host) (m : Message) (s : State)
    (hm : m.command ≠ "create_loader".toList) :
    (dispatch h m s).state.nodes.length = s.nodes.length := by
  unfold dispatch
  rw [if_neg hm]
  split_ifs
  · cases m.args with
    | none => rfl
    | some a => exact refreshNodes_length h _ s.nodes s.calls
  · rfl

theorem dispatch_nodes_length_of_ok (h : Host) (m : Message) (s : State)
    (hok : (dispatch h m s).raised = false) :
    (dispatch h m s).state.nodes.length =
      s.nodes.length + if m.command = "create_loader".toList then 1 else 0 := by
  by_cases hm : m.command = "create_loader".toList
  · rw [if_pos hm]
    unfold dispatch at hok ⊢
    rw [if_pos hm] at hok ⊢
    cases hargs : m.args with
    | none => rw [hargs] at hok; cases hok
    | some a => simp
  · rw [if_neg hm, dispatch_nodes_length_of_ne h m s hm]
    rfl

/-- A batch that ran to its end grew the graph by one node per `create_loader`
message. -/
theorem loop_nodes_length (h : Host) (ms : List Message) (s : State)
    (hok : (loop h ms s).raised = false) :
    (loop h ms s).state.nodes.length =
      s.nodes.length + ms.countP (fun m => decide (m.command = "create_loader".toList)) := by
  induction ms generalizing s with
  | nil => rfl
  | cons m ms ih =>
    rw [loop_cons] at hok ⊢
    split_ifs at hok ⊢ with hr
    · rw [hr] at hok; cases hok
    · have hr' : (dispatch h m { s with last_time := max s.last_time m.time }).raised = false := by
        simpa using hr
      rw [ih _ hok, dispatch_nodes_length_of_ok h m _ hr', List.countP_cons]
      by_cases hm : m.command = "create_loader".toList
      · simp only [hm, if_true, decide_True]; omega
      · simp only [hm, if_false, decide_False]
        simp

/-- Claim C9: a `create_loader` message with image path `p` does not throw and
appends one node to the node list, leaving the nodes already there in place
and unchanged; the new node has type `LoadImage`, `p` as the value of its
first widget, and sits at the centre of the visible area (x + width / 2,
y + height / 2), which for the viewport 800 by 600 at (100, 50) is (500, 350).
Two such messages with the same arguments append two nodes. No other command
changes the number of nodes, so a batch that runs to its end adds as many
nodes as it has `create_loader` messages. -/
theorem C9_create_loader_appends_one_node (h : Host) (s : State) (time : ℚ) (p : Str) :
    (dispatch h (createMsg time p) s).raised = false
    ∧ (dispatch h (createMsg time p) s).state.nodes = s.nodes ++ [newLoader h (.str p)]
    ∧ (dispatch h (createMsg time p) s).state.nodes.length = s.nodes.length + 1
    ∧ (newLoader h (.str p)).type = "LoadImage".toList
    ∧ ((newLoader h (.str p)).widgets.bind List.head?).map Widget.value = some (.str p)
    ∧ (∀ x y w ht : ℚ, h.visible_area = (x, y, w, ht) →
        (newLoader h (.str p)).pos = (x + w / 2, y + ht / 2))
    ∧ (newLoader exampleHost (.str p)).pos = (500, 350)
    ∧ (loop h [createMsg time p, createMsg time p] s).raised = false
    ∧ (loop h [createMsg time p, createMsg time p] s).state.nodes
        = s.nodes ++ [newLoader h (.str p), newLoader h (.str p)]
    ∧ (∀ m : Message, m.command ≠ "create_loader".toList →
        (dispatch h m s).state.nodes.length = s.nodes.length)
    ∧ (∀ (status : Nat) (ms : List Message),
        (poll_messages h (.response status (.json (some ms))) s).raised = false →
        (poll_messages h (.response status (.json (some ms))) s).state.nodes.length
          = s.nodes.length
            + ms.countP (fun m => decide (m.command = "create_loader".toList))) := by
  refine ⟨?_, ?_, ?_, rfl, rfl, ?_, ?_, ?_, ?_, ?_, ?_⟩
  · rw [dispatch_create]
  · rw [dispatch_create]
  · rw [dispatch_create]; simp
  · intro x y w ht hv
    simp only [newLoader, hv]
  · simp only [newLoader, exampleHost]
    norm_num
  · simp only [loop, dispatch_create, Bool.false_eq_true, if_false]
  · simp only [loop, dispatch_create, Bool.false_eq_true, if_false, List.append_assoc,
      List.singleton_append]
  · intro m hm
    exact dispatch_nodes_length_of_ne h m s hm
  · intro status ms hok
    cases ms with
    | nil => rfl
    | cons m ms =>
      have hpoll : poll_messages h (.response status (.json (some (m :: ms)))) s
          = loop h (m :: ms) s := by
        simp [poll_messages]
      rw [hpoll] at hok ⊢
      exact loop_nodes_length h _ s hok

end Listener
